import Mathlib

/-!
Shallow embedding of the vxsig match-chain table
(`vxsig/match_chain_table.h`).

The data model (entity structures, index types, filter modes, the column
layout) is translated from the header.  The repository ships only the
header; the member-function bodies (`InsertFunctionMatch`,
`InsertBasicBlockMatch`, `InsertInstructionMatch`, `FinishChain`,
`BuildIdIndices`, `PropagateIds`) live in a translation unit that is not
part of the sources, so those operations are modelled from the
specification document, as indicated on each definition.

Modelling conventions:
* `std::map<MemoryAddress, std::unique_ptr<T>>` becomes an association
  list `List (MemoryAddress × T)` kept in strictly ascending key order;
  iteration order of the C++ map is the list order.
* Non-owning pointers into an owning index (`MatchedBasicBlock*` inside a
  function's member set, identity-index values) become the primary
  address (resp. the address under the identity key), resolved through
  the owning index on use.
* The `Ident id = 0` field, whose value `0` means "unset" per the spec
  while the identity space assigned by propagation also starts at `0`
  (seed identities are `0, 1, 2, …` and identity `0` is retrievable per
  the spec's round-trip property), is modelled as `Option Ident` with
  `none` for the unset state so that the two are not conflated.
* Addresses are fixed-width unsigned integers in the source; no
  operation here performs address arithmetic (only comparisons), so they
  are modelled as `Nat`.
* Aborting on a contract violation (`CHECK`-style failure on duplicate
  insertion) is modelled by returning `none` from the operation.
-/

set_option maxHeartbeats 1000000

namespace vxsig

abbrev MemoryAddress := Nat

abbrev Ident := Nat

/-- Pair of a primary address and the matched address in the next binary,
as produced by one pairwise diff. -/
abbrev MemoryAddressPair := MemoryAddress × MemoryAddress

/-- Represents a single BinDiff match between two binaries
(`MatchedMemoryAddress` in the header). -/
structure MatchedMemoryAddress where
  address : MemoryAddress
  address_in_next : MemoryAddress
  id : Option Ident := none
deriving DecidableEq

/-- Construction of a `MatchedMemoryAddress` from a `MemoryAddressPair`
(the `from_match` constructor argument in the header); the identity
starts out unset. -/
def MatchedMemoryAddress.fromMatch (p : MemoryAddressPair) : MatchedMemoryAddress :=
  { address := p.1, address_in_next := p.2, id := none }

/-- Represents an instruction that has been matched by BinDiff. -/
structure MatchedInstruction where
  match_ : MatchedMemoryAddress
  raw_instruction_bytes : String := ""
  disassembly : String := ""
deriving DecidableEq

/-- Represents a matched basic block.  The member set of instructions
(ordered by `MatchCompare`, that is by primary address) is modelled as
the strictly ascending list of the instructions' primary addresses,
resolved through the owning column index. -/
structure MatchedBasicBlock where
  match_ : MatchedMemoryAddress
  instructions : List MemoryAddress := []
  weight : Int := 0
deriving DecidableEq

/-- Represents a matched function with its member set of basic blocks
(ordered by primary address, modelled as the list of their addresses). -/
structure MatchedFunction where
  match_ : MatchedMemoryAddress
  basic_blocks : List MemoryAddress := []
deriving DecidableEq

/-- Function filter mode (`SignatureDefinition::FunctionFilterMode`). -/
inductive FunctionFilterMode where
  | FILTER_NONE
  | FILTER_BLACKLIST
  | FILTER_WHITELIST
deriving DecidableEq

/-- Lookup in an association list modelling an address- or
identity-keyed `std::map`: returns the value stored under the first
matching key. -/
def lookupA {κ α : Type} [DecidableEq κ] : List (κ × α) → κ → Option α
  | [], _ => none
  | kv :: rest, a => if kv.1 = a then some kv.2 else lookupA rest a

/-- Insertion into a strictly-ascending association list that fails (like
a `CHECK` on `std::map::emplace` reporting no insertion) when the key is
already present. -/
def insertNew {α : Type} (a : MemoryAddress) (x : α) :
    List (MemoryAddress × α) → Option (List (MemoryAddress × α))
  | [] => some [(a, x)]
  | kv :: rest =>
    if a < kv.1 then some ((a, x) :: kv :: rest)
    else if a = kv.1 then none
    else (insertNew a x rest).map (kv :: ·)

/-- Insertion into a strictly-ascending association list at the sorted
position, keeping the existing entry when the key is already present
(create-or-reuse, used by chain termination). -/
def insertSortedKV {α : Type} (a : MemoryAddress) (x : α) :
    List (MemoryAddress × α) → List (MemoryAddress × α)
  | [] => [(a, x)]
  | kv :: rest =>
    if a < kv.1 then (a, x) :: kv :: rest
    else if a = kv.1 then kv :: rest
    else kv :: insertSortedKV a x rest

/-- Create-or-reuse insertion: a no-op when the key is present, a sorted
insertion otherwise. -/
def insertIfAbsent {α : Type} (a : MemoryAddress) (x : α)
    (c : List (MemoryAddress × α)) : List (MemoryAddress × α) :=
  match lookupA c a with
  | some _ => c
  | none => insertSortedKV a x c

/-- Update the value stored under a key in place, leaving all other
entries untouched (pointer-mediated mutation of an owned entity). -/
def adjustA {α : Type} (f : α → α) (a : MemoryAddress)
    (c : List (MemoryAddress × α)) : List (MemoryAddress × α) :=
  c.map (fun kv => if kv.1 = a then (kv.1, f kv.2) else kv)

/-- Insertion into a strictly ascending list of addresses (a
`std::set<T*, MatchCompare<T>>` member set); a no-op on a duplicate. -/
def insertSortedNat (a : Nat) : List Nat → List Nat
  | [] => [a]
  | b :: rest =>
    if a < b then a :: b :: rest
    else if a = b then b :: rest
    else b :: insertSortedNat a rest

/-- Represents a single column in a table of match chains
(`MatchChainColumn`).  The three address-keyed indices own the entities;
the identity indices map an identity to the primary address of the
entity carrying it. -/
structure MatchChainColumn where
  function_filter_ : FunctionFilterMode := .FILTER_NONE
  filtered_functions_ : List MemoryAddress := []
  functions_by_address_ : List (MemoryAddress × MatchedFunction) := []
  basic_blocks_by_address_ : List (MemoryAddress × MatchedBasicBlock) := []
  instructions_by_address_ : List (MemoryAddress × MatchedInstruction) := []
  functions_by_id_ : List (Ident × MemoryAddress) := []
  basic_blocks_by_id_ : List (Ident × MemoryAddress) := []
  filename_ : String := ""
  sha256_ : String := ""
  diff_directory_ : String := ""
deriving DecidableEq

/-- The empty, freshly constructed column (`MatchChainColumn() = default`):
no filter, no entities. -/
def MatchChainColumn.empty : MatchChainColumn := {}

/-- Adds a function address to the set of filtered functions
(`AddFilteredFunction`). -/
def MatchChainColumn.AddFilteredFunction (col : MatchChainColumn)
    (a : MemoryAddress) : MatchChainColumn :=
  { col with filtered_functions_ := insertSortedNat a col.filtered_functions_ }

/-- Sets the function filter mode (`set_function_filter`). -/
def MatchChainColumn.set_function_filter (col : MatchChainColumn)
    (m : FunctionFilterMode) : MatchChainColumn :=
  { col with function_filter_ := m }

/-- Modelled from the spec: the filter decision inside
`InsertFunctionMatch` (the body is not among the sources; §4.1 of the
spec and the header comment on `function_filter_` describe it).  With
`FILTER_BLACKLIST` an address in the filtered set is rejected; with
`FILTER_WHITELIST` only addresses in the filtered set are admitted;
`FILTER_NONE` admits everything. -/
def filteredOut (col : MatchChainColumn) (a : MemoryAddress) : Bool :=
  match col.function_filter_ with
  | .FILTER_NONE => false
  | .FILTER_BLACKLIST => col.filtered_functions_.contains a
  | .FILTER_WHITELIST => ! col.filtered_functions_.contains a

/-- Modelled from the spec: `MatchChainColumn::InsertFunctionMatch` (the
body is not among the sources; spec §4.1).  A filtered pair is a no-op
returning no entity; otherwise the function is inserted keyed by its
primary address, a duplicate address being a contract violation
(modelled as result `none`), and the new function is returned. -/
def MatchChainColumn.InsertFunctionMatch (col : MatchChainColumn)
    (p : MemoryAddressPair) :
    Option (MatchChainColumn × Option MatchedFunction) :=
  if filteredOut col p.1 then some (col, none)
  else
    let f : MatchedFunction := { match_ := .fromMatch p }
    match insertNew p.1 f col.functions_by_address_ with
    | none => none
    | some idx => some ({ col with functions_by_address_ := idx }, some f)

/-- Modelled from the spec: `MatchChainColumn::InsertBasicBlockMatch`
(the body is not among the sources; spec §4.1).  The owning function,
passed by reference in the source and here by its primary address, must
belong to this column (contract violation otherwise, spec §7); the basic
block is inserted into the owning index keyed by its primary address
(duplicate is a contract violation) and its address is added to the
function's member set. -/
def MatchChainColumn.InsertBasicBlockMatch (col : MatchChainColumn)
    (fnAddr : MemoryAddress) (p : MemoryAddressPair) :
    Option (MatchChainColumn × MatchedBasicBlock) :=
  match lookupA col.functions_by_address_ fnAddr with
  | none => none
  | some _ =>
    let bb : MatchedBasicBlock := { match_ := .fromMatch p }
    match insertNew p.1 bb col.basic_blocks_by_address_ with
    | none => none
    | some idx =>
      some ({ col with
                basic_blocks_by_address_ := idx,
                functions_by_address_ :=
                  adjustA
                    (fun f =>
                      { f with basic_blocks := insertSortedNat p.1 f.basic_blocks })
                    fnAddr col.functions_by_address_ },
            bb)

/-- Modelled from the spec: `MatchChainColumn::InsertInstructionMatch`
(the body is not among the sources; spec §4.1), symmetric to the basic
block case with the owning basic block addressed by its primary
address. -/
def MatchChainColumn.InsertInstructionMatch (col : MatchChainColumn)
    (bbAddr : MemoryAddress) (p : MemoryAddressPair) :
    Option (MatchChainColumn × MatchedInstruction) :=
  match lookupA col.basic_blocks_by_address_ bbAddr with
  | none => none
  | some _ =>
    let ins : MatchedInstruction := { match_ := .fromMatch p }
    match insertNew p.1 ins col.instructions_by_address_ with
    | none => none
    | some idx =>
      some ({ col with
                instructions_by_address_ := idx,
                basic_blocks_by_address_ :=
                  adjustA
                    (fun bb =>
                      { bb with instructions := insertSortedNat p.1 bb.instructions })
                    bbAddr col.basic_blocks_by_address_ },
            ins)

/-- Exact-address lookup `FindFunctionByAddress`. -/
def MatchChainColumn.FindFunctionByAddress (col : MatchChainColumn)
    (a : MemoryAddress) : Option MatchedFunction :=
  lookupA col.functions_by_address_ a

/-- Exact-address lookup `FindBasicBlockByAddress`. -/
def MatchChainColumn.FindBasicBlockByAddress (col : MatchChainColumn)
    (a : MemoryAddress) : Option MatchedBasicBlock :=
  lookupA col.basic_blocks_by_address_ a

/-- Exact-address lookup `FindInstructionByAddress`. -/
def MatchChainColumn.FindInstructionByAddress (col : MatchChainColumn)
    (a : MemoryAddress) : Option MatchedInstruction :=
  lookupA col.instructions_by_address_ a

/-- Modelled from the spec: construction of one identity index inside
`BuildIdIndices` (the body is not among the sources; spec §4.2):
enumerate the address-keyed owning index and record each entity's
assigned identity; an unset identity is not recorded, and on an identity
collision the first entity enumerated is kept (`std::map` insertion does
not overwrite). -/
def buildIndex {α : Type} (g : α → MatchedMemoryAddress)
    (c : List (MemoryAddress × α)) : List (Ident × MemoryAddress) :=
  c.foldl
    (fun idx kv =>
      match (g kv.2).id with
      | none => idx
      | some v => if (lookupA idx v).isSome then idx else idx ++ [(v, kv.1)])
    []

/-- Projection of a matched function onto its address pair. -/
def fnMatch (f : MatchedFunction) : MatchedMemoryAddress := f.match_

/-- Identity assignment on a matched function (mutation of `match.id`
through the non-const `id` member). -/
def fnSetId (v : Ident) (f : MatchedFunction) : MatchedFunction :=
  { f with match_ := { f.match_ with id := some v } }

/-- Projection of a matched basic block onto its address pair. -/
def bbMatch (bb : MatchedBasicBlock) : MatchedMemoryAddress := bb.match_

/-- Projection of a matched instruction onto its address pair. -/
def insMatch (i : MatchedInstruction) : MatchedMemoryAddress := i.match_

/-- Identity assignment on a matched basic block. -/
def bbSetId (v : Ident) (bb : MatchedBasicBlock) : MatchedBasicBlock :=
  { bb with match_ := { bb.match_ with id := some v } }

/-- Modelled from the spec: `MatchChainColumn::BuildIdIndices` (the body
is not among the sources; spec §4.2): rebuilds both identity-keyed
indices from the address-keyed owning indices. -/
def MatchChainColumn.BuildIdIndices (col : MatchChainColumn) : MatchChainColumn :=
  { col with
      functions_by_id_ := buildIndex fnMatch col.functions_by_address_,
      basic_blocks_by_id_ := buildIndex bbMatch col.basic_blocks_by_address_ }

/-- Identity lookup `FindFunctionById`: resolves the identity index
entry (a non-owning pointer, modelled by the primary address) through
the owning index. -/
def MatchChainColumn.FindFunctionById (col : MatchChainColumn)
    (v : Ident) : Option MatchedFunction :=
  (lookupA col.functions_by_id_ v).bind (lookupA col.functions_by_address_)

/-- Identity lookup `FindBasicBlockById`. -/
def MatchChainColumn.FindBasicBlockById (col : MatchChainColumn)
    (v : Ident) : Option MatchedBasicBlock :=
  (lookupA col.basic_blocks_by_id_ v).bind (lookupA col.basic_blocks_by_address_)

/-- Modelled from the spec: one level of `FinishChain` (the body is not
among the sources; spec §4.4): for every entity of the previous column
whose `address_in_next` is not the sentinel `0`, create (or reuse) an
entry in this column at that address, with `address_in_next` the
sentinel. -/
def finishInto {α : Type} (g : α → MatchedMemoryAddress)
    (mk : MemoryAddress → α) (preds : List α)
    (cur : List (MemoryAddress × α)) : List (MemoryAddress × α) :=
  preds.foldl
    (fun c p =>
      if (g p).address_in_next = 0 then c
      else insertIfAbsent (g p).address_in_next (mk (g p).address_in_next) c)
    cur

/-- Synthetic terminal function created by chain termination from the
address pair `(address, 0)`. -/
def mkTerminalFn (a : MemoryAddress) : MatchedFunction :=
  { match_ := .fromMatch (a, 0) }

/-- Synthetic terminal basic block created by chain termination. -/
def mkTerminalBB (a : MemoryAddress) : MatchedBasicBlock :=
  { match_ := .fromMatch (a, 0) }

/-- Synthetic terminal instruction created by chain termination. -/
def mkTerminalInstr (a : MemoryAddress) : MatchedInstruction :=
  { match_ := .fromMatch (a, 0) }

/-- Modelled from the spec: `MatchChainColumn::FinishChain` (the body is
not among the sources; spec §4.4): the final column absorbs the
`address_in_next` values of every entity of the second-to-last column,
each absorbed entry carrying the sentinel as its own `address_in_next`.
The spec describes the absorption per entity and does not specify a
member-set linkage for the synthetic entries, so none is modelled. -/
def MatchChainColumn.FinishChain (col prev : MatchChainColumn) : MatchChainColumn :=
  { col with
      functions_by_address_ :=
        finishInto fnMatch mkTerminalFn
          (prev.functions_by_address_.map Prod.snd) col.functions_by_address_,
      basic_blocks_by_address_ :=
        finishInto bbMatch mkTerminalBB
          (prev.basic_blocks_by_address_.map Prod.snd) col.basic_blocks_by_address_,
      instructions_by_address_ :=
        finishInto insMatch mkTerminalInstr
          (prev.instructions_by_address_.map Prod.snd) col.instructions_by_address_ }

/-- Assigns an identity to the entity stored at the given address, a
no-op when no entity lives there. -/
def assignAt {α : Type} (s : Ident → α → α) (c : List (MemoryAddress × α))
    (a : MemoryAddress) (v : Ident) : List (MemoryAddress × α) :=
  c.map (fun kv => if kv.1 = a then (kv.1, s v kv.2) else kv)

/-- Modelled from the spec: the forward-threading step of `PropagateIds`
(the body is not among the sources; spec §4.3 step 2): for every
predecessor entity that already has an identity, follow its
`address_in_next` unless it is the sentinel, and when the current column
holds an entity at that primary address, assign it the same identity;
a missing successor propagates nothing. -/
def propagateInto {α : Type} (g : α → MatchedMemoryAddress)
    (s : Ident → α → α) (preds : List α)
    (cur : List (MemoryAddress × α)) : List (MemoryAddress × α) :=
  preds.foldl
    (fun c p =>
      match (g p).id with
      | none => c
      | some v =>
        if (g p).address_in_next = 0 then c
        else assignAt s c (g p).address_in_next v)
    cur

/-- Sequential seeding of the master enumeration: entities are assigned
the identities `n, n+1, n+2, …` in list (that is, ascending address)
order. -/
def seedFnList (n : Nat) :
    List (MemoryAddress × MatchedFunction) → List (MemoryAddress × MatchedFunction)
  | [] => []
  | kv :: rest => (kv.1, fnSetId n kv.2) :: seedFnList (n + 1) rest

/-- Sequential seeding of one function's basic blocks: the blocks at the
given member-set addresses receive identities `t, t+1, …` in member-set
(ascending address) order. -/
def assignIdsAt (c : List (MemoryAddress × MatchedBasicBlock)) (t : Nat) :
    List MemoryAddress → List (MemoryAddress × MatchedBasicBlock)
  | [] => c
  | a :: rest => assignIdsAt (assignAt bbSetId c a t) (t + 1) rest

/-- Modelled from the spec: the seeding step of `PropagateIds` (the body
is not among the sources; spec §4.3 step 1): column 0's functions are
enumerated in ascending address order and assigned identities
`0, 1, 2, …`; independently, each function's basic blocks are assigned
identities `0, 1, 2, …` in ascending address order, the basic-block
identity space being scoped to the enclosing function. -/
def seedColumn (col : MatchChainColumn) : MatchChainColumn :=
  { col with
      functions_by_address_ := seedFnList 0 col.functions_by_address_,
      basic_blocks_by_address_ :=
        col.functions_by_address_.foldl
          (fun b kv => assignIdsAt b 0 kv.2.basic_blocks)
          col.basic_blocks_by_address_ }

/-- Modelled from the spec: the per-column forward-threading step of
`PropagateIds` applied to a whole column (spec §4.3 steps 2 and 4):
function identities are threaded through the function index, and each
previous-column function's basic blocks (resolved from its member set)
are threaded into this column's basic-block index. -/
def propagateColumnStep (prev cur : MatchChainColumn) : MatchChainColumn :=
  { cur with
      functions_by_address_ :=
        propagateInto fnMatch fnSetId
          (prev.functions_by_address_.map Prod.snd) cur.functions_by_address_,
      basic_blocks_by_address_ :=
        prev.functions_by_address_.foldl
          (fun b kv =>
            propagateInto bbMatch bbSetId
              (kv.2.basic_blocks.filterMap (lookupA prev.basic_blocks_by_address_))
              b)
          cur.basic_blocks_by_address_ }

/-- Sequential threading over the remaining columns of the table, each
column being propagated into from the updated previous column. -/
def propagateColumns (prev : MatchChainColumn) :
    List MatchChainColumn → List MatchChainColumn
  | [] => []
  | c :: rest =>
    (propagateColumnStep prev c) :: propagateColumns (propagateColumnStep prev c) rest

/-- Modelled from the spec: `PropagateIds` (the body is not among the
sources; spec §4.3): seed the master column, then thread identities
forward column by column. -/
def PropagateIds : List MatchChainColumn → List MatchChainColumn
  | [] => []
  | c :: rest => seedColumn c :: propagateColumns (seedColumn c) rest

/-- One insertion request issued by the diff-result loader against a
column; owning entities are designated by their primary address. -/
inductive Op where
  | insFn (p : MemoryAddressPair)
  | insBB (fnAddr : MemoryAddress) (p : MemoryAddressPair)
  | insInstr (bbAddr : MemoryAddress) (p : MemoryAddressPair)
deriving DecidableEq

/-- Applies one insertion to a column.  A filter no-op leaves the column
unchanged, and a contract violation aborts, so no modified state is
observable; both are modelled by returning the column unchanged. -/
def applyOp (col : MatchChainColumn) : Op → MatchChainColumn
  | .insFn p =>
    match col.InsertFunctionMatch p with
    | some (c, _) => c
    | none => col
  | .insBB fnAddr p =>
    match col.InsertBasicBlockMatch fnAddr p with
    | some (c, _) => c
    | none => col
  | .insInstr bbAddr p =>
    match col.InsertInstructionMatch bbAddr p with
    | some (c, _) => c
    | none => col

/-- Applies a sequence of insertions in order. -/
def applyOps (col : MatchChainColumn) (ops : List Op) : MatchChainColumn :=
  ops.foldl applyOp col

/-- Structural well-formedness of a column (spec §3 ownership
invariants): every owning address index is keyed in strictly ascending
address order (hence no two entities share a primary address), and every
member set (a function's basic blocks, a basic block's instructions)
lists its elements' addresses in strictly ascending order (hence without
duplicates). -/
def ColumnWF (col : MatchChainColumn) : Prop :=
  (col.functions_by_address_.map Prod.fst).Pairwise (· < ·) ∧
  (col.basic_blocks_by_address_.map Prod.fst).Pairwise (· < ·) ∧
  (col.instructions_by_address_.map Prod.fst).Pairwise (· < ·) ∧
  (∀ kv ∈ col.functions_by_address_, kv.2.basic_blocks.Pairwise (· < ·)) ∧
  (∀ kv ∈ col.basic_blocks_by_address_, kv.2.instructions.Pairwise (· < ·))

instance (col : MatchChainColumn) : Decidable (ColumnWF col) := by
  unfold ColumnWF; infer_instance

/-- At-most-one-entity-per-identity property of one owning index: no
identity value is carried by entities at two different primary
addresses. -/
def AtMostOnePerId {α : Type} (g : α → MatchedMemoryAddress)
    (c : List (MemoryAddress × α)) : Prop :=
  ∀ kv1 ∈ c, ∀ kv2 ∈ c,
    (g kv1.2).id.isSome → (g kv1.2).id = (g kv2.2).id → kv1.1 = kv2.1

instance {α : Type} (g : α → MatchedMemoryAddress)
    (c : List (MemoryAddress × α)) : Decidable (AtMostOnePerId g c) := by
  unfold AtMostOnePerId; infer_instance

/-- Concrete population of a master column: two functions at addresses
`100` and `200`, each owning one basic block (`110` resp. `210`), the
first basic block owning one instruction (`120`); no entity has a
successor in a next binary. -/
def exampleOps : List Op :=
  [.insFn (100, 0), .insBB 100 (110, 0), .insInstr 110 (120, 0),
    .insFn (200, 0), .insBB 200 (210, 0)]

/-- The populated master column of the concrete example. -/
def exampleColumn : MatchChainColumn :=
  applyOps MatchChainColumn.empty exampleOps

/-- The concrete example column after the seeding step of identity
propagation. -/
def exampleSeeded : MatchChainColumn := seedColumn exampleColumn

/-- The seeded concrete example column with its identity indices
built. -/
def exampleIndexed : MatchChainColumn := exampleSeeded.BuildIdIndices

/-! Basic lemmas about the association-list operations. -/

lemma contains_eq_true_iff_mem (l : List MemoryAddress) (a : MemoryAddress) :
    l.contains a = true ↔ a ∈ l := by
  induction l with
  | nil => simp
  | cons b rest ih => simp [List.contains_cons] at ih ⊢

lemma lookupA_eq_none_iff {α : Type} (l : List (MemoryAddress × α)) (a : MemoryAddress) :
    lookupA l a = none ↔ a ∉ l.map Prod.fst := by
  induction l with
  | nil => simp [lookupA]
  | cons kv rest ih =>
    by_cases h : kv.1 = a
    · simp [lookupA, h]
    · simp [lookupA, h, ih, Ne.symm h]

lemma lookupA_ne_none_of_mem {α : Type} {l : List (MemoryAddress × α)}
    {a : MemoryAddress} {x : α} (h : (a, x) ∈ l) : lookupA l a ≠ none := by
  intro hn
  exact (lookupA_eq_none_iff l a).mp hn (by exact List.mem_map.mpr ⟨(a, x), h, rfl⟩)

lemma insertNew_of_absent {α : Type} (a : MemoryAddress) (x : α) :
    ∀ l : List (MemoryAddress × α), lookupA l a = none →
      ∃ l', insertNew a x l = some l' ∧ lookupA l' a = some x := by
  intro l
  induction l with
  | nil => intro _; exact ⟨[(a, x)], rfl, by simp [lookupA]⟩
  | cons kv rest ih =>
    intro h
    have hk : kv.1 ≠ a := by
      intro he; simp [lookupA, he] at h
    have hrest : lookupA rest a = none := by
      simpa [lookupA, hk] using h
    by_cases hlt : a < kv.1
    · exact ⟨(a, x) :: kv :: rest, by simp [insertNew, hlt], by simp [lookupA]⟩
    · obtain ⟨l', hl', hlook⟩ := ih hrest
      refine ⟨kv :: l', ?_, ?_⟩
      · simp [insertNew, hlt, Ne.symm hk, hl']
      · simp [lookupA, hk, hlook]

lemma insertNew_of_present {α : Type} (a : MemoryAddress) (x : α) :
    ∀ l : List (MemoryAddress × α), (l.map Prod.fst).Pairwise (· < ·) →
      lookupA l a ≠ none → insertNew a x l = none := by
  intro l
  induction l with
  | nil => intro _ h; simp [lookupA] at h
  | cons kv rest ih =>
    intro hs h
    by_cases he : a = kv.1
    · have hnlt : ¬ a < kv.1 := by rw [he]; exact lt_irrefl _
      simp [insertNew, hnlt, he]
    · have hk : kv.1 ≠ a := Ne.symm he
      have hrest : lookupA rest a ≠ none := by
        simpa [lookupA, hk] using h
      have hmem : a ∈ rest.map Prod.fst := by
        by_contra hna
        exact hrest ((lookupA_eq_none_iff rest a).mpr hna)
      have hlt : kv.1 < a := by
        have := (List.pairwise_cons.mp (by simpa using hs)).1 a hmem
        exact this
      have hnlt : ¬ a < kv.1 := Nat.lt_asymm hlt
      have := ih (List.pairwise_cons.mp (by simpa using hs)).2 hrest
      simp [insertNew, hnlt, he, this]

/-- C6: `InsertFunctionMatch` applies the function filter: a
blacklisted address (or a non-whitelisted address under whitelist mode)
is a no-op returning no entity and leaving `functions_by_address`
unchanged; otherwise, at a fresh address, the function is inserted keyed
by its primary address and returned. -/
theorem C6_insert_function_filter (col : MatchChainColumn) (p : MemoryAddressPair) :
    ((col.function_filter_ = .FILTER_BLACKLIST ∧ p.1 ∈ col.filtered_functions_) ∨
      (col.function_filter_ = .FILTER_WHITELIST ∧ p.1 ∉ col.filtered_functions_) →
      col.InsertFunctionMatch p = some (col, none)) ∧
    (¬ ((col.function_filter_ = .FILTER_BLACKLIST ∧ p.1 ∈ col.filtered_functions_) ∨
        (col.function_filter_ = .FILTER_WHITELIST ∧ p.1 ∉ col.filtered_functions_)) →
      lookupA col.functions_by_address_ p.1 = none →
      ∃ col', col.InsertFunctionMatch p =
          some (col', some { match_ := .fromMatch p }) ∧
        lookupA col'.functions_by_address_ p.1 =
          some { match_ := .fromMatch p }) := by
  have hout : filteredOut col p.1 = true ↔
      (col.function_filter_ = .FILTER_BLACKLIST ∧ p.1 ∈ col.filtered_functions_) ∨
      (col.function_filter_ = .FILTER_WHITELIST ∧ p.1 ∉ col.filtered_functions_) := by
    unfold filteredOut
    cases hm : col.function_filter_ <;>
      simp [hm, contains_eq_true_iff_mem]
  constructor
  · intro h
    have : filteredOut col p.1 = true := hout.mpr h
    simp [MatchChainColumn.InsertFunctionMatch, this]
  · intro h hfresh
    have hne : filteredOut col p.1 = false := by
      cases hb : filteredOut col p.1
      · rfl
      · exact absurd (hout.mp hb) h
    obtain ⟨l', hl', hlook⟩ :=
      insertNew_of_absent p.1 ({ match_ := .fromMatch p } : MatchedFunction)
        col.functions_by_address_ hfresh
    exact ⟨{ col with functions_by_address_ := l' },
      by simp [MatchChainColumn.InsertFunctionMatch, hne, hl'], hlook⟩

/-- C6 witness: under blacklist mode with `100` filtered, inserting a
pair at `100` is a no-op returning no entity. -/
theorem C6_insert_function_filter_witness :
    (((MatchChainColumn.empty.AddFilteredFunction 100).set_function_filter
          .FILTER_BLACKLIST).function_filter_ = FunctionFilterMode.FILTER_BLACKLIST ∧
      (100 : MemoryAddress) ∈
        ((MatchChainColumn.empty.AddFilteredFunction 100).set_function_filter
          .FILTER_BLACKLIST).filtered_functions_) ∧
    ((MatchChainColumn.empty.AddFilteredFunction 100).set_function_filter
        .FILTER_BLACKLIST).InsertFunctionMatch (100, 0) =
      some ((MatchChainColumn.empty.AddFilteredFunction 100).set_function_filter
        .FILTER_BLACKLIST, none) :=
  ⟨⟨by decide, by decide⟩,
    (C6_insert_function_filter
      ((MatchChainColumn.empty.AddFilteredFunction 100).set_function_filter
        .FILTER_BLACKLIST) (100, 0)).1 (Or.inl ⟨by decide, by decide⟩)⟩

/-- C7: inserting a pair whose primary address is already present in
the corresponding owning index fails with an error result (the model of
the loud abort) for all three insertion operations, and in particular
never yields a successor column in which the existing entity was
overwritten.  The function case is stated for a pair the filter admits,
since a filtered pair is rejected before the owning index is consulted. -/
theorem C7_duplicate_insert_fails (col : MatchChainColumn)
    (hwf : ColumnWF col)
    (pf pb pi : MemoryAddressPair) (fnAddr bbAddr : MemoryAddress)
    (hnf : filteredOut col pf.1 = false)
    (hf : lookupA col.functions_by_address_ pf.1 ≠ none)
    (hb : lookupA col.basic_blocks_by_address_ pb.1 ≠ none)
    (hi : lookupA col.instructions_by_address_ pi.1 ≠ none) :
    col.InsertFunctionMatch pf = none ∧
    col.InsertBasicBlockMatch fnAddr pb = none ∧
    col.InsertInstructionMatch bbAddr pi = none := by
  obtain ⟨hs1, hs2, hs3, _, _⟩ := hwf
  refine ⟨?_, ?_, ?_⟩
  · have := insertNew_of_present pf.1
      ({ match_ := .fromMatch pf } : MatchedFunction) col.functions_by_address_ hs1 hf
    simp [MatchChainColumn.InsertFunctionMatch, hnf, this]
  · have := insertNew_of_present pb.1
      ({ match_ := .fromMatch pb } : MatchedBasicBlock) col.basic_blocks_by_address_ hs2 hb
    unfold MatchChainColumn.InsertBasicBlockMatch
    cases hfn : lookupA col.functions_by_address_ fnAddr <;> simp [this]
  · have := insertNew_of_present pi.1
      ({ match_ := .fromMatch pi } : MatchedInstruction) col.instructions_by_address_ hs3 hi
    unfold MatchChainColumn.InsertInstructionMatch
    cases hbb : lookupA col.basic_blocks_by_address_ bbAddr <;> simp [this]

/-- C7 witness: concrete duplicate insertions (function at `100`, basic
block at `110`, instruction at `120`) against the populated example
column fail for all three entity levels. -/
theorem C7_duplicate_insert_fails_witness :
    (ColumnWF exampleColumn ∧
      filteredOut exampleColumn 100 = false ∧
      lookupA exampleColumn.functions_by_address_ 100 ≠ none ∧
      lookupA exampleColumn.basic_blocks_by_address_ 110 ≠ none ∧
      lookupA exampleColumn.instructions_by_address_ 120 ≠ none) ∧
    (exampleColumn.InsertFunctionMatch (100, 7) = none ∧
      exampleColumn.InsertBasicBlockMatch 100 (110, 7) = none ∧
      exampleColumn.InsertInstructionMatch 110 (120, 7) = none) :=
  ⟨⟨by decide, by decide, by decide, by decide, by decide⟩,
    C7_duplicate_insert_fails exampleColumn (by decide) (100, 7) (110, 7) (120, 7)
      100 110 (by decide) (by decide) (by decide) (by decide)⟩

/-- C9: `BuildIdIndices` is idempotent: a second call leaves the column
(and with it every identity lookup) unchanged. -/
theorem C9_build_id_indices_idempotent (col : MatchChainColumn) :
    col.BuildIdIndices.BuildIdIndices = col.BuildIdIndices ∧
    (∀ v, col.BuildIdIndices.BuildIdIndices.FindFunctionById v =
        col.BuildIdIndices.FindFunctionById v) ∧
    (∀ v, col.BuildIdIndices.BuildIdIndices.FindBasicBlockById v =
        col.BuildIdIndices.FindBasicBlockById v) := by
  refine ⟨rfl, fun v => rfl, fun v => rfl⟩

/-! Lemmas for chain termination (C4). -/

lemma lookupA_some_mem {α : Type} :
    ∀ {c : List (MemoryAddress × α)} {a : MemoryAddress} {w : α},
      lookupA c a = some w → (a, w) ∈ c := by
  intro c
  induction c with
  | nil => intro a w h; simp [lookupA] at h
  | cons kv rest ih =>
    intro a w h
    by_cases hk : kv.1 = a
    · simp only [lookupA, if_pos hk, Option.some.injEq] at h
      have : kv = (a, w) := Prod.ext_iff.mpr ⟨hk, h⟩
      rw [← this]
      exact List.mem_cons_self kv rest
    · simp only [lookupA, if_neg hk] at h
      exact List.mem_cons_of_mem kv (ih h)

lemma lookupA_insertSortedKV_self {α : Type} (a : MemoryAddress) (x : α) :
    ∀ c : List (MemoryAddress × α), lookupA c a = none →
      lookupA (insertSortedKV a x c) a = some x := by
  intro c
  induction c with
  | nil => intro _; simp [insertSortedKV, lookupA]
  | cons kv rest ih =>
    intro h
    have hk : kv.1 ≠ a := by
      intro he; simp [lookupA, he] at h
    have hrest : lookupA rest a = none := by simpa [lookupA, hk] using h
    by_cases hlt : a < kv.1
    · simp [insertSortedKV, hlt, lookupA]
    · simp [insertSortedKV, hlt, Ne.symm hk, lookupA, hk, ih hrest]

lemma lookupA_insertSortedKV_ne {α : Type} (a : MemoryAddress) (x : α)
    (b : MemoryAddress) (hne : b ≠ a) :
    ∀ c : List (MemoryAddress × α),
      lookupA (insertSortedKV a x c) b = lookupA c b := by
  intro c
  induction c with
  | nil => simp [insertSortedKV, lookupA, Ne.symm hne]
  | cons kv rest ih =>
    by_cases hlt : a < kv.1
    · simp [insertSortedKV, hlt, lookupA, Ne.symm hne]
    · by_cases he : a = kv.1
      · simp [insertSortedKV, hlt, he]
      · by_cases hkb : kv.1 = b
        · subst hkb
          simp [insertSortedKV, hlt, he, lookupA]
        · simp [insertSortedKV, hlt, he, lookupA, hkb, ih]

lemma mem_insertSortedKV {α : Type} {a : MemoryAddress} {x : α} :
    ∀ {c : List (MemoryAddress × α)} {kv : MemoryAddress × α},
      kv ∈ insertSortedKV a x c → kv ∈ c ∨ kv = (a, x) := by
  intro c
  induction c with
  | nil => intro kv h; simp [insertSortedKV] at h; exact Or.inr h
  | cons kv0 rest ih =>
    intro kv h
    by_cases hlt : a < kv0.1
    · simp only [insertSortedKV, if_pos hlt] at h
      rcases List.mem_cons.mp h with h1 | h1
      · exact Or.inr h1
      · exact Or.inl h1
    · by_cases he : a = kv0.1
      · simp only [insertSortedKV, if_neg hlt, if_pos he] at h
        exact Or.inl h
      · simp only [insertSortedKV, if_neg hlt, if_neg he] at h
        rcases List.mem_cons.mp h with h1 | h1
        · exact Or.inl (by rw [h1]; exact List.mem_cons_self kv0 rest)
        · rcases ih h1 with h2 | h2
          · exact Or.inl (List.mem_cons_of_mem kv0 h2)
          · exact Or.inr h2

lemma mem_insertIfAbsent {α : Type} {a : MemoryAddress} {x : α}
    {c : List (MemoryAddress × α)} {kv : MemoryAddress × α}
    (h : kv ∈ insertIfAbsent a x c) : kv ∈ c ∨ kv = (a, x) := by
  unfold insertIfAbsent at h
  cases hl : lookupA c a with
  | some w => rw [hl] at h; exact Or.inl h
  | none => rw [hl] at h; exact mem_insertSortedKV h

/-- Property of a terminal column: every entity's primary address is its
key and its `address_in_next` is the sentinel. -/
def TerminalWF {α : Type} (g : α → MatchedMemoryAddress)
    (c : List (MemoryAddress × α)) : Prop :=
  ∀ kv ∈ c, (g kv.2).address = kv.1 ∧ (g kv.2).address_in_next = 0

lemma finishInto_terminalWF {α : Type} {g : α → MatchedMemoryAddress}
    {mk : MemoryAddress → α}
    (hmk : ∀ a, (g (mk a)).address = a ∧ (g (mk a)).address_in_next = 0) :
    ∀ (preds : List α) (c : List (MemoryAddress × α)), TerminalWF g c →
      TerminalWF g (finishInto g mk preds c) := by
  intro preds
  induction preds with
  | nil => intro c h; exact h
  | cons p rest ih =>
    intro c h
    by_cases hz : (g p).address_in_next = 0
    · simpa [finishInto, List.foldl_cons, hz] using
        ih c (by simpa [finishInto] using h)
    · have hstep : TerminalWF g
          (insertIfAbsent (g p).address_in_next (mk (g p).address_in_next) c) := by
        intro kv hkv
        rcases mem_insertIfAbsent hkv with h1 | h1
        · exact h kv h1
        · rw [h1]
          exact hmk (g p).address_in_next
      simpa [finishInto, List.foldl_cons, hz] using
        ih (insertIfAbsent (g p).address_in_next (mk (g p).address_in_next) c) hstep

lemma finishInto_mono {α : Type} (g : α → MatchedMemoryAddress)
    (mk : MemoryAddress → α) :
    ∀ (preds : List α) (c : List (MemoryAddress × α)) (a : MemoryAddress) (e : α),
      lookupA c a = some e →
      lookupA (finishInto g mk preds c) a = some e := by
  intro preds
  induction preds with
  | nil => intro c a e h; exact h
  | cons p rest ih =>
    intro c a e h
    by_cases hz : (g p).address_in_next = 0
    · simpa [finishInto, List.foldl_cons, hz] using ih c a e h
    · have hstep : lookupA
          (insertIfAbsent (g p).address_in_next (mk (g p).address_in_next) c) a =
          some e := by
        unfold insertIfAbsent
        cases hl : lookupA c (g p).address_in_next with
        | some w => exact h
        | none =>
          have hne : a ≠ (g p).address_in_next := by
            intro he; rw [he, hl] at h; exact Option.noConfusion h
          rw [lookupA_insertSortedKV_ne _ _ _ hne]
          exact h
      simpa [finishInto, List.foldl_cons, hz] using
        ih (insertIfAbsent (g p).address_in_next (mk (g p).address_in_next) c) a e hstep

lemma finishInto_complete {α : Type} (g : α → MatchedMemoryAddress)
    (mk : MemoryAddress → α)
    (hmk : ∀ a, (g (mk a)).address = a ∧ (g (mk a)).address_in_next = 0) :
    ∀ (preds : List α) (c : List (MemoryAddress × α)), TerminalWF g c →
      ∀ p ∈ preds, (g p).address_in_next ≠ 0 →
        ∃ e, lookupA (finishInto g mk preds c) (g p).address_in_next = some e ∧
          (g e).address = (g p).address_in_next ∧ (g e).address_in_next = 0 := by
  intro preds
  induction preds with
  | nil => intro c _ p hp; exact absurd hp (List.not_mem_nil p)
  | cons p0 rest ih =>
    intro c hwf p hp hnz
    rcases List.mem_cons.mp hp with he | hmem
    · subst he
      have hc' : ∃ e, lookupA
          (insertIfAbsent (g p).address_in_next (mk (g p).address_in_next) c)
          (g p).address_in_next = some e ∧
          (g e).address = (g p).address_in_next ∧ (g e).address_in_next = 0 := by
        unfold insertIfAbsent
        cases hl : lookupA c (g p).address_in_next with
        | some w =>
          exact ⟨w, hl, hwf ((g p).address_in_next, w) (lookupA_some_mem hl)⟩
        | none =>
          refine ⟨mk (g p).address_in_next, ?_, hmk _⟩
          exact lookupA_insertSortedKV_self _ _ c hl
      obtain ⟨e, hle, hprops⟩ := hc'
      refine ⟨e, ?_, hprops⟩
      have := finishInto_mono g mk rest _ _ _ hle
      simpa [finishInto, List.foldl_cons, hnz] using this
    · have hstep : TerminalWF g
          (if (g p0).address_in_next = 0 then c
            else insertIfAbsent (g p0).address_in_next (mk (g p0).address_in_next) c) := by
        by_cases hz : (g p0).address_in_next = 0
        · simpa [hz] using hwf
        · rw [if_neg hz]
          intro kv hkv
          rcases mem_insertIfAbsent hkv with h1 | h1
          · exact hwf kv h1
          · rw [h1]
            exact hmk (g p0).address_in_next
      have := ih _ hstep p hmem hnz
      by_cases hz : (g p0).address_in_next = 0
      · simpa [finishInto, List.foldl_cons, hz] using (by rw [if_pos hz] at this; exact this)
      · simpa [finishInto, List.foldl_cons, hz] using (by rw [if_neg hz] at this; exact this)

/-- C4: after `FinishChain(prev)` is applied to the final column (whose
pre-existing entries, if any, are terminal: keyed by their own primary
address with sentinel `address_in_next`), every entity of the previous
column with a non-sentinel `address_in_next` has a corresponding entity
in the final column keyed at that address, whose primary address equals
that `address_in_next` and whose own `address_in_next` is the
sentinel `0` — at every entity level. -/
theorem C4_finish_chain (prev cur : MatchChainColumn)
    (hf : ∀ kv ∈ cur.functions_by_address_,
      kv.2.match_.address = kv.1 ∧ kv.2.match_.address_in_next = 0)
    (hb : ∀ kv ∈ cur.basic_blocks_by_address_,
      kv.2.match_.address = kv.1 ∧ kv.2.match_.address_in_next = 0)
    (hi : ∀ kv ∈ cur.instructions_by_address_,
      kv.2.match_.address = kv.1 ∧ kv.2.match_.address_in_next = 0) :
    (∀ kv ∈ prev.functions_by_address_, kv.2.match_.address_in_next ≠ 0 →
      ∃ e, lookupA (cur.FinishChain prev).functions_by_address_
          kv.2.match_.address_in_next = some e ∧
        e.match_.address = kv.2.match_.address_in_next ∧
        e.match_.address_in_next = 0) ∧
    (∀ kv ∈ prev.basic_blocks_by_address_, kv.2.match_.address_in_next ≠ 0 →
      ∃ e, lookupA (cur.FinishChain prev).basic_blocks_by_address_
          kv.2.match_.address_in_next = some e ∧
        e.match_.address = kv.2.match_.address_in_next ∧
        e.match_.address_in_next = 0) ∧
    (∀ kv ∈ prev.instructions_by_address_, kv.2.match_.address_in_next ≠ 0 →
      ∃ e, lookupA (cur.FinishChain prev).instructions_by_address_
          kv.2.match_.address_in_next = some e ∧
        e.match_.address = kv.2.match_.address_in_next ∧
        e.match_.address_in_next = 0) := by
  refine ⟨?_, ?_, ?_⟩
  · intro kv hkv hnz
    exact finishInto_complete fnMatch mkTerminalFn
      (fun a => ⟨rfl, rfl⟩) (prev.functions_by_address_.map Prod.snd)
      cur.functions_by_address_ hf kv.2 (List.mem_map.mpr ⟨kv, hkv, rfl⟩) hnz
  · intro kv hkv hnz
    exact finishInto_complete bbMatch mkTerminalBB
      (fun a => ⟨rfl, rfl⟩) (prev.basic_blocks_by_address_.map Prod.snd)
      cur.basic_blocks_by_address_ hb kv.2 (List.mem_map.mpr ⟨kv, hkv, rfl⟩) hnz
  · intro kv hkv hnz
    exact finishInto_complete insMatch mkTerminalInstr
      (fun a => ⟨rfl, rfl⟩) (prev.instructions_by_address_.map Prod.snd)
      cur.instructions_by_address_ hi kv.2 (List.mem_map.mpr ⟨kv, hkv, rfl⟩) hnz

/-- Concrete second-to-last column for the chain-termination witness:
one function, basic block and instruction, each with a non-sentinel
successor address. -/
def examplePrev : MatchChainColumn :=
  applyOps MatchChainColumn.empty
    [.insFn (100, 300), .insBB 100 (110, 310), .insInstr 110 (120, 320)]

/-- C4 witness: terminating the chain of the concrete column into an
empty final column creates terminal entities at the successor
addresses. -/
theorem C4_finish_chain_witness :
    ((∀ kv ∈ MatchChainColumn.empty.functions_by_address_,
        kv.2.match_.address = kv.1 ∧ kv.2.match_.address_in_next = 0) ∧
      (∀ kv ∈ MatchChainColumn.empty.basic_blocks_by_address_,
        kv.2.match_.address = kv.1 ∧ kv.2.match_.address_in_next = 0) ∧
      (∀ kv ∈ MatchChainColumn.empty.instructions_by_address_,
        kv.2.match_.address = kv.1 ∧ kv.2.match_.address_in_next = 0)) ∧
    (∀ kv ∈ examplePrev.functions_by_address_, kv.2.match_.address_in_next ≠ 0 →
      ∃ e, lookupA (MatchChainColumn.empty.FinishChain examplePrev).functions_by_address_
          kv.2.match_.address_in_next = some e ∧
        e.match_.address = kv.2.match_.address_in_next ∧
        e.match_.address_in_next = 0) :=
  ⟨⟨by decide, by decide, by decide⟩,
    (C4_finish_chain examplePrev MatchChainColumn.empty
      (by decide) (by decide) (by decide)).1⟩

/-! Lemmas for identity propagation (C1, C2, C3, C5). -/

/-- Application of an optional identity write to an entity. -/
def applyLast {α : Type} (s : Ident → α → α) (w : Option Ident) (x : α) : α :=
  match w with
  | none => x
  | some v => s v x

/-- The identity written last (i.e. winning) at a given target address by
the forward-threading step: the identity of the last predecessor with an
assigned identity and this non-sentinel `address_in_next`. -/
def lastWrite {α : Type} (g : α → MatchedMemoryAddress) :
    List α → MemoryAddress → Option Ident
  | [], _ => none
  | p :: rest, a =>
    match lastWrite g rest a with
    | some v => some v
    | none =>
      if (g p).address_in_next = a ∧ (g p).address_in_next ≠ 0 then (g p).id
      else none

/-- Two entities do not share an assigned identity. -/
def IdsDisjoint {α : Type} (g : α → MatchedMemoryAddress) (p q : α) : Prop :=
  (g p).id.isSome → (g p).id ≠ (g q).id

instance {α : Type} (g : α → MatchedMemoryAddress) (p q : α) :
    Decidable (IdsDisjoint g p q) := by
  unfold IdsDisjoint; infer_instance

lemma idsDisjoint_symm {α : Type} {g : α → MatchedMemoryAddress} {p q : α}
    (h : IdsDisjoint g p q) : IdsDisjoint g q p := by
  intro hq heq
  exact h (heq ▸ hq) heq.symm

lemma idsDisjoint_symmetric {α : Type} (g : α → MatchedMemoryAddress) :
    Symmetric (IdsDisjoint g) := fun _ _ h => idsDisjoint_symm h

/-- Two identified entities do not point at the same non-sentinel
successor address (the well-formedness of a pairwise diff, whose matches
form a partial bijection). -/
def NextInj {α : Type} (g : α → MatchedMemoryAddress) (p q : α) : Prop :=
  (g p).id.isSome → (g q).id.isSome → (g p).address_in_next ≠ 0 →
    (g p).address_in_next ≠ (g q).address_in_next

instance {α : Type} (g : α → MatchedMemoryAddress) (p q : α) :
    Decidable (NextInj g p q) := by
  unfold NextInj; infer_instance

lemma nextInj_symm {α : Type} {g : α → MatchedMemoryAddress} {p q : α}
    (h : NextInj g p q) : NextInj g q p := by
  intro hq hp hqnz heq
  by_cases hz : (g p).address_in_next = 0
  · exact hqnz (heq.trans hz)
  · exact h hp hq hz heq.symm

lemma nextInj_symmetric {α : Type} (g : α → MatchedMemoryAddress) :
    Symmetric (NextInj g) := fun _ _ h => nextInj_symm h

lemma fn_set_match (v : Ident) (x : MatchedFunction) :
    fnMatch (fnSetId v x) = { fnMatch x with id := some v } := rfl

lemma fn_set_set (v w : Ident) (x : MatchedFunction) :
    fnSetId v (fnSetId w x) = fnSetId v x := rfl

lemma bb_set_match (v : Ident) (x : MatchedBasicBlock) :
    bbMatch (bbSetId v x) = { bbMatch x with id := some v } := rfl

lemma bb_set_set (v w : Ident) (x : MatchedBasicBlock) :
    bbSetId v (bbSetId w x) = bbSetId v x := rfl

lemma propagateInto_eq_map {α : Type} (g : α → MatchedMemoryAddress)
    (s : Ident → α → α) (hss : ∀ v w x, s v (s w x) = s v x) :
    ∀ (preds : List α) (cur : List (MemoryAddress × α)),
      propagateInto g s preds cur =
        cur.map (fun kv => (kv.1, applyLast s (lastWrite g preds kv.1) kv.2)) := by
  intro preds
  induction preds with
  | nil =>
    intro cur
    simp [propagateInto, lastWrite, applyLast]
  | cons p rest ih =>
    intro cur
    cases hid : (g p).id with
    | none =>
      have h1 : propagateInto g s (p :: rest) cur = propagateInto g s rest cur := by
        simp [propagateInto, List.foldl_cons, hid]
      rw [h1, ih]
      have hfun : ∀ kv : MemoryAddress × α,
          (kv.1, applyLast s (lastWrite g rest kv.1) kv.2) =
          (kv.1, applyLast s (lastWrite g (p :: rest) kv.1) kv.2) := by
        intro kv
        have hw : lastWrite g (p :: rest) kv.1 = lastWrite g rest kv.1 := by
          simp only [lastWrite]
          cases lastWrite g rest kv.1 with
          | some v => rfl
          | none => simp [hid]
        rw [hw]
      exact List.map_congr_left (fun kv _ => hfun kv)
    | some v =>
      by_cases hz : (g p).address_in_next = 0
      · have h1 : propagateInto g s (p :: rest) cur = propagateInto g s rest cur := by
          simp [propagateInto, List.foldl_cons, hid, hz]
        rw [h1, ih]
        have hfun : ∀ kv : MemoryAddress × α,
            (kv.1, applyLast s (lastWrite g rest kv.1) kv.2) =
            (kv.1, applyLast s (lastWrite g (p :: rest) kv.1) kv.2) := by
          intro kv
          have hw : lastWrite g (p :: rest) kv.1 = lastWrite g rest kv.1 := by
            simp only [lastWrite]
            cases lastWrite g rest kv.1 with
            | some w => rfl
            | none => simp [hz]
          rw [hw]
        exact List.map_congr_left (fun kv _ => hfun kv)
      · have h1 : propagateInto g s (p :: rest) cur =
            propagateInto g s rest (assignAt s cur (g p).address_in_next v) := by
          simp [propagateInto, List.foldl_cons, hid, hz]
        rw [h1, ih, assignAt, List.map_map]
        have hfun : ∀ kv : MemoryAddress × α,
            ((fun kv2 : MemoryAddress × α =>
                (kv2.1, applyLast s (lastWrite g rest kv2.1) kv2.2)) ∘
              fun kv2 : MemoryAddress × α =>
                if kv2.1 = (g p).address_in_next then (kv2.1, s v kv2.2) else kv2) kv =
            (kv.1, applyLast s (lastWrite g (p :: rest) kv.1) kv.2) := by
          intro kv
          by_cases hk : kv.1 = (g p).address_in_next
          · simp only [Function.comp_apply, if_pos hk]
            have hcond : ((g p).address_in_next = kv.1 ∧ (g p).address_in_next ≠ 0) := ⟨hk.symm, hz⟩
            cases hlw : lastWrite g rest kv.1 with
            | some w =>
              have : lastWrite g (p :: rest) kv.1 = some w := by
                simp only [lastWrite, hlw]
              rw [this]
              simp [applyLast, hss]
            | none =>
              have : lastWrite g (p :: rest) kv.1 = some v := by
                simp only [lastWrite, hlw]
                rw [if_pos hcond, hid]
              rw [this]
              simp [applyLast]
          · simp only [Function.comp_apply, if_neg hk]
            have : lastWrite g (p :: rest) kv.1 = lastWrite g rest kv.1 := by
              simp only [lastWrite]
              cases lastWrite g rest kv.1 with
              | some w => rfl
              | none =>
                rw [if_neg]
                intro hc
                exact hk (hc.1.symm)
            rw [this]
        exact List.map_congr_left (fun kv _ => hfun kv)

lemma lookupA_propagateInto {α : Type} (g : α → MatchedMemoryAddress)
    (s : Ident → α → α) (hss : ∀ v w x, s v (s w x) = s v x)
    (preds : List α) (cur : List (MemoryAddress × α)) (a : MemoryAddress) :
    lookupA (propagateInto g s preds cur) a =
      (lookupA cur a).map (applyLast s (lastWrite g preds a)) := by
  rw [propagateInto_eq_map g s hss]
  induction cur with
  | nil => simp [lookupA]
  | cons kv rest ih =>
    by_cases hk : kv.1 = a
    · simp [lookupA, hk]
    · simp [lookupA, hk, ih]

lemma lastWrite_mem {α : Type} (g : α → MatchedMemoryAddress) :
    ∀ {preds : List α} {a : MemoryAddress} {v : Ident},
      lastWrite g preds a = some v →
      ∃ q ∈ preds, (g q).id = some v ∧ (g q).address_in_next = a ∧ a ≠ 0 := by
  intro preds
  induction preds with
  | nil => intro a v h; simp [lastWrite] at h
  | cons p rest ih =>
    intro a v h
    simp only [lastWrite] at h
    cases hrest : lastWrite g rest a with
    | some w =>
      rw [hrest] at h
      obtain ⟨q, hq, hprops⟩ := ih hrest
      rcases Option.some.inj h with rfl
      exact ⟨q, List.mem_cons_of_mem p hq, hprops⟩
    | none =>
      rw [hrest] at h
      by_cases hc : (g p).address_in_next = a ∧ (g p).address_in_next ≠ 0
      · rw [if_pos hc] at h
        exact ⟨p, List.mem_cons_self p rest, h, hc.1, hc.1 ▸ hc.2⟩
      · rw [if_neg hc] at h
        exact absurd h (by simp)

lemma lastWrite_unique {α : Type} (g : α → MatchedMemoryAddress) :
    ∀ {preds : List α}, preds.Pairwise (NextInj g) →
      ∀ {p : α}, p ∈ preds → ∀ {v : Ident}, (g p).id = some v →
        (g p).address_in_next ≠ 0 →
        lastWrite g preds ((g p).address_in_next) = some v := by
  intro preds
  induction preds with
  | nil => intro _ p hp; exact absurd hp (List.not_mem_nil p)
  | cons p0 rest ih =>
    intro hpw p hp v hv hnz
    have hpw' := List.pairwise_cons.mp hpw
    rcases List.mem_cons.mp hp with he | hmem
    · subst he
      have hnone : lastWrite g rest ((g p).address_in_next) = none := by
        cases hlw : lastWrite g rest ((g p).address_in_next) with
        | none => rfl
        | some w =>
          obtain ⟨q, hq, hid, hnext, _⟩ := lastWrite_mem g hlw
          have hcontra := hpw'.1 q hq (by simp [hv]) (by simp [hid]) hnz
          exact absurd hnext.symm hcontra
      simp [lastWrite, hnone, hnz, hv]
    · have hres := ih hpw'.2 hmem hv hnz
      simp only [lastWrite]
      rw [hres]

lemma entry_id_source {α : Type} {g : α → MatchedMemoryAddress}
    {s : Ident → α → α} (hgs : ∀ v x, g (s v x) = { g x with id := some v })
    {preds : List α} {cur : List (MemoryAddress × α)}
    (hun : ∀ kv ∈ cur, (g kv.2).id = none)
    {kv : MemoryAddress × α} (hkv : kv ∈ cur) {v : Ident}
    (hid : (g (applyLast s (lastWrite g preds kv.1) kv.2)).id = some v) :
    lastWrite g preds kv.1 = some v := by
  cases hlw : lastWrite g preds kv.1 with
  | none =>
    rw [hlw] at hid
    simp only [applyLast] at hid
    rw [hun kv hkv] at hid
    exact absurd hid (by simp)
  | some w =>
    rw [hlw] at hid
    simp only [applyLast, hgs] at hid
    exact hid

lemma entry_key_eq {α : Type} {g : α → MatchedMemoryAddress}
    {s : Ident → α → α} (hgs : ∀ v x, g (s v x) = { g x with id := some v })
    {preds : List α} (hids : preds.Pairwise (IdsDisjoint g))
    {cur : List (MemoryAddress × α)} (hun : ∀ kv ∈ cur, (g kv.2).id = none)
    {kv1 kv2 : MemoryAddress × α} (h1 : kv1 ∈ cur) (h2 : kv2 ∈ cur) {v : Ident}
    (hid1 : (g (applyLast s (lastWrite g preds kv1.1) kv1.2)).id = some v)
    (hid2 : (g (applyLast s (lastWrite g preds kv2.1) kv2.2)).id = some v) :
    kv1.1 = kv2.1 := by
  have hl1 := entry_id_source hgs hun h1 hid1
  have hl2 := entry_id_source hgs hun h2 hid2
  obtain ⟨q1, hq1, hidq1, hn1, _⟩ := lastWrite_mem g hl1
  obtain ⟨q2, hq2, hidq2, hn2, _⟩ := lastWrite_mem g hl2
  by_cases hqq : q1 = q2
  · rw [← hn1, ← hn2, hqq]
  · have hdisj := hids.forall (idsDisjoint_symmetric g) hq1 hq2 hqq
    exact absurd (hidq1.trans hidq2.symm) (hdisj (by simp [hidq1]))

lemma pairwise_imp_mem {α : Type} {R S : α → α → Prop} :
    ∀ {l : List α}, (∀ a ∈ l, ∀ b ∈ l, R a b → S a b) → l.Pairwise R → l.Pairwise S := by
  intro l
  induction l with
  | nil => intro _ _; exact List.Pairwise.nil
  | cons x rest ih =>
    intro h hpw
    have hpw' := List.pairwise_cons.mp hpw
    refine List.pairwise_cons.mpr ⟨?_, ih ?_ hpw'.2⟩
    · intro b hb
      exact h x (List.mem_cons_self x rest) b (List.mem_cons_of_mem x hb) (hpw'.1 b hb)
    · intro a ha b hb hr
      exact h a (List.mem_cons_of_mem x ha) b (List.mem_cons_of_mem x hb) hr

lemma propagateInto_atMostOne {α : Type} (g : α → MatchedMemoryAddress)
    (s : Ident → α → α) (hgs : ∀ v x, g (s v x) = { g x with id := some v })
    (hss : ∀ v w x, s v (s w x) = s v x)
    {preds : List α} (hids : preds.Pairwise (IdsDisjoint g))
    {cur : List (MemoryAddress × α)} (hun : ∀ kv ∈ cur, (g kv.2).id = none) :
    AtMostOnePerId g (propagateInto g s preds cur) := by
  intro kv1 hkv1 kv2 hkv2 hsome heq
  rw [propagateInto_eq_map g s hss] at hkv1 hkv2
  obtain ⟨a1, ha1, he1⟩ := List.mem_map.mp hkv1
  obtain ⟨a2, ha2, he2⟩ := List.mem_map.mp hkv2
  obtain ⟨v, hv⟩ := Option.isSome_iff_exists.mp hsome
  subst he1
  subst he2
  have hid1 : (g (applyLast s (lastWrite g preds a1.1) a1.2)).id = some v := hv
  have hid2 : (g (applyLast s (lastWrite g preds a2.1) a2.2)).id = some v :=
    heq.symm.trans hv
  show a1.1 = a2.1
  exact entry_key_eq hgs hids hun ha1 ha2 hid1 hid2

lemma propagateInto_keys {α : Type} (g : α → MatchedMemoryAddress)
    (s : Ident → α → α) (hss : ∀ v w x, s v (s w x) = s v x)
    (preds : List α) (cur : List (MemoryAddress × α)) :
    (propagateInto g s preds cur).map Prod.fst = cur.map Prod.fst := by
  rw [propagateInto_eq_map g s hss, List.map_map]
  rfl

lemma propagateInto_pairwise {α : Type} (g : α → MatchedMemoryAddress)
    (s : Ident → α → α) (hgs : ∀ v x, g (s v x) = { g x with id := some v })
    (hss : ∀ v w x, s v (s w x) = s v x)
    {preds : List α} (hids : preds.Pairwise (IdsDisjoint g))
    {cur : List (MemoryAddress × α)} (hkeys : (cur.map Prod.fst).Nodup)
    (hun : ∀ kv ∈ cur, (g kv.2).id = none) :
    ((propagateInto g s preds cur).map Prod.snd).Pairwise (IdsDisjoint g) := by
  rw [propagateInto_eq_map g s hss, List.map_map]
  have hkp : cur.Pairwise (fun kv1 kv2 : MemoryAddress × α => kv1.1 ≠ kv2.1) :=
    List.pairwise_map.mp hkeys
  rw [List.pairwise_map]
  refine pairwise_imp_mem ?_ hkp
  intro kv1 h1 kv2 h2 hne hsome heq
  simp only [Function.comp_apply] at hsome heq
  obtain ⟨v, hv⟩ := Option.isSome_iff_exists.mp hsome
  exact absurd (entry_key_eq hgs hids hun h1 h2 hv (heq ▸ hv)) hne

/-- C1: during forward threading, a predecessor entity with an assigned
identity and a non-sentinel `address_in_next` passes its identity to the
entity of the current column stored at that primary address when one
exists (the entity is the same one, with the identity assigned); when no
such entity exists the identity has no representative in the resulting
column, and the step is a total function, so propagation continues for
the remaining identities without error. -/
theorem C1_forward_threading
    (preds : List MatchedFunction) (cur : List (MemoryAddress × MatchedFunction))
    (hids : preds.Pairwise (IdsDisjoint fnMatch))
    (hinj : preds.Pairwise (NextInj fnMatch))
    (hun : ∀ kv ∈ cur, (fnMatch kv.2).id = none)
    (p : MatchedFunction) (hp : p ∈ preds) (v : Ident)
    (hv : (fnMatch p).id = some v) (hnz : (fnMatch p).address_in_next ≠ 0) :
    (∀ f, lookupA cur (fnMatch p).address_in_next = some f →
      lookupA (propagateInto fnMatch fnSetId preds cur) (fnMatch p).address_in_next =
        some (fnSetId v f) ∧ (fnMatch (fnSetId v f)).id = some v) ∧
    (lookupA cur (fnMatch p).address_in_next = none →
      ∀ kv ∈ propagateInto fnMatch fnSetId preds cur, (fnMatch kv.2).id ≠ some v) := by
  constructor
  · intro f hf
    refine ⟨?_, rfl⟩
    rw [lookupA_propagateInto fnMatch fnSetId fn_set_set preds cur _, hf,
      lastWrite_unique fnMatch hinj hp hv hnz]
    rfl
  · intro hmiss kv hkv hcontra
    rw [propagateInto_eq_map fnMatch fnSetId fn_set_set] at hkv
    obtain ⟨kv0, hkv0, heq⟩ := List.mem_map.mp hkv
    subst heq
    have hsrc : lastWrite fnMatch preds kv0.1 = some v :=
      entry_id_source fn_set_match hun hkv0 hcontra
    obtain ⟨q, hq, hidq, hnq, _⟩ := lastWrite_mem fnMatch hsrc
    by_cases hpq : p = q
    · rw [← hpq] at hnq
      rw [hnq] at hmiss
      exact lookupA_ne_none_of_mem hkv0 hmiss
    · have hdisj := hids.forall (idsDisjoint_symmetric fnMatch) hp hq hpq
      exact hdisj (by simp [hv]) (hv.trans hidq.symm)

/-- Concrete predecessor entity for the C1 witness: identity `0`,
successor address `100`. -/
def witPred : MatchedFunction :=
  { match_ := { address := 10, address_in_next := 100, id := some 0 } }

/-- Concrete current-column entity for the C1 witness. -/
def witCurFn : MatchedFunction :=
  { match_ := { address := 100, address_in_next := 0, id := none } }

/-- C1 witness: threading the single-predecessor column into a column
holding an entity at address `100` assigns that entity identity `0`. -/
theorem C1_forward_threading_witness :
    ([witPred].Pairwise (IdsDisjoint fnMatch) ∧
      [witPred].Pairwise (NextInj fnMatch) ∧
      (∀ kv ∈ [((100 : MemoryAddress), witCurFn)], (fnMatch kv.2).id = none) ∧
      witPred ∈ [witPred] ∧ (fnMatch witPred).id = some 0 ∧
      (fnMatch witPred).address_in_next ≠ 0 ∧
      lookupA [((100 : MemoryAddress), witCurFn)] (fnMatch witPred).address_in_next =
        some witCurFn) ∧
    lookupA (propagateInto fnMatch fnSetId [witPred]
        [((100 : MemoryAddress), witCurFn)]) (fnMatch witPred).address_in_next =
      some (fnSetId 0 witCurFn) := by
  have h := C1_forward_threading [witPred] [((100 : MemoryAddress), witCurFn)]
    (by simp) (by simp) (by decide) witPred (by simp) 0 (by decide) (by decide)
  exact ⟨⟨by simp, by simp, by decide, by simp, by decide, by decide, by decide⟩,
    (h.1 witCurFn (by decide)).1⟩

lemma seedFnList_map_fst :
    ∀ (l : List (MemoryAddress × MatchedFunction)) (n : Nat),
      (seedFnList n l).map Prod.fst = l.map Prod.fst := by
  intro l
  induction l with
  | nil => intro n; rfl
  | cons kv rest ih => intro n; simp [seedFnList, ih]

lemma seedFnList_map_id :
    ∀ (l : List (MemoryAddress × MatchedFunction)) (n : Nat),
      (seedFnList n l).map (fun kv => (fnMatch kv.2).id) =
        (List.range' n l.length).map some := by
  intro l
  induction l with
  | nil => intro n; rfl
  | cons kv rest ih =>
    intro n
    rw [List.length_cons, List.range'_succ n rest.length 1]
    simp only [seedFnList, List.map_cons, ih]
    rfl

lemma seedFnList_rank :
    ∀ (l : List (MemoryAddress × MatchedFunction)) (n : Nat),
      (l.map Prod.fst).Pairwise (· < ·) →
      ∀ kv ∈ seedFnList n l,
        (fnMatch kv.2).id =
          some (n + (l.map Prod.fst).countP (fun a => decide (a < kv.1))) := by
  intro l
  induction l with
  | nil => intro n _ kv hkv; exact absurd hkv (List.not_mem_nil kv)
  | cons kv0 rest ih =>
    intro n hs kv hkv
    rw [List.map_cons] at hs
    have hs' := List.pairwise_cons.mp hs
    rcases List.mem_cons.mp hkv with he | hmem
    · rw [he]
      have hc : (List.map Prod.fst (kv0 :: rest)).countP
          (fun a => decide (a < kv0.1)) = 0 := by
        rw [List.countP_eq_zero]
        intro a ha
        rw [List.map_cons] at ha
        rcases List.mem_cons.mp ha with ha1 | ha1
        · simp [ha1]
        · have := hs'.1 a ha1
          simp only [decide_eq_true_eq]
          exact Nat.lt_asymm this
      show some n = _
      rw [hc]
      rfl
    · have hres := ih (n + 1) hs'.2 kv hmem
      have hkey : kv.1 ∈ rest.map Prod.fst := by
        rw [← seedFnList_map_fst rest (n + 1)]
        exact List.mem_map.mpr ⟨kv, hmem, rfl⟩
      have hlt : kv0.1 < kv.1 := hs'.1 kv.1 hkey
      rw [hres, List.map_cons, List.countP_cons]
      simp only [decide_eq_true_eq, hlt, if_true, Option.some.injEq]
      omega

lemma seedFnList_mem_ge :
    ∀ (l : List (MemoryAddress × MatchedFunction)) (n : Nat) (kv),
      kv ∈ seedFnList n l → ∃ k, n ≤ k ∧ (fnMatch kv.2).id = some k := by
  intro l
  induction l with
  | nil => intro n kv h; exact absurd h (List.not_mem_nil kv)
  | cons kv0 rest ih =>
    intro n kv h
    rcases List.mem_cons.mp h with he | hm
    · exact ⟨n, le_refl n, by rw [he]; rfl⟩
    · obtain ⟨k, hk, hid⟩ := ih (n + 1) kv hm
      exact ⟨k, by omega, hid⟩

lemma seedFnList_pairwise :
    ∀ (l : List (MemoryAddress × MatchedFunction)) (n : Nat),
      ((seedFnList n l).map Prod.snd).Pairwise (IdsDisjoint fnMatch) := by
  intro l
  induction l with
  | nil => intro n; exact List.Pairwise.nil
  | cons kv0 rest ih =>
    intro n
    simp only [seedFnList, List.map_cons]
    refine List.pairwise_cons.mpr ⟨?_, ih (n + 1)⟩
    intro b hb
    obtain ⟨b0, hb0, hbe⟩ := List.mem_map.mp hb
    obtain ⟨k, hk, hid⟩ := seedFnList_mem_ge rest (n + 1) b0 hb0
    intro _ hcontra
    have hL : (fnMatch (fnSetId n kv0.2)).id = some n := rfl
    have hR : (fnMatch b).id = some k := hbe ▸ hid
    have := Option.some.inj (hL.symm.trans (hcontra.trans hR))
    omega

/-- C2: after the seeding step, a column whose `k` functions are keyed
in strictly ascending address order (the `std::map` invariant) carries
the identities `some 0, …, some (k-1)` in enumeration order — so the
identity set is exactly `{0, …, k-1}` — and every function's identity is
the rank of its primary address among all the column's function
addresses. -/
theorem C2_seed_identities (col : MatchChainColumn)
    (hsorted : (col.functions_by_address_.map Prod.fst).Pairwise (· < ·)) :
    ((seedColumn col).functions_by_address_.map (fun kv => (fnMatch kv.2).id) =
      (List.range col.functions_by_address_.length).map some) ∧
    (∀ kv ∈ (seedColumn col).functions_by_address_,
      (fnMatch kv.2).id =
        some ((col.functions_by_address_.map Prod.fst).countP
          (fun a => decide (a < kv.1)))) := by
  constructor
  · show (seedFnList 0 col.functions_by_address_).map (fun kv => (fnMatch kv.2).id) = _
    rw [seedFnList_map_id, List.range_eq_range']
  · intro kv hkv
    have := seedFnList_rank col.functions_by_address_ 0 hsorted kv hkv
    simpa using this

/-- C2 witness: seeding the populated example column assigns its two
functions (addresses `100 < 200`) the identities `0` and `1`, each the
rank of its address. -/
theorem C2_seed_identities_witness :
    (exampleColumn.functions_by_address_.map Prod.fst).Pairwise (· < ·) ∧
    (seedColumn exampleColumn).functions_by_address_.map (fun kv => (fnMatch kv.2).id) =
      (List.range exampleColumn.functions_by_address_.length).map some :=
  ⟨by decide, (C2_seed_identities exampleColumn (by decide)).1⟩

lemma atMostOne_of_snd_pairwise {α : Type} (g : α → MatchedMemoryAddress) :
    ∀ {c : List (MemoryAddress × α)},
      (c.map Prod.snd).Pairwise (IdsDisjoint g) → AtMostOnePerId g c := by
  intro c
  induction c with
  | nil => intro _ kv1 hkv1; exact absurd hkv1 (List.not_mem_nil kv1)
  | cons kv0 rest ih =>
    intro h kv1 hkv1 kv2 hkv2 hsome heq
    rw [List.map_cons] at h
    have h' := List.pairwise_cons.mp h
    rcases List.mem_cons.mp hkv1 with h1 | h1 <;> rcases List.mem_cons.mp hkv2 with h2 | h2
    · rw [h1, h2]
    · have hd := h'.1 kv2.2 (List.mem_map.mpr ⟨kv2, h2, rfl⟩)
      rw [h1] at hsome heq
      exact absurd heq (hd hsome)
    · have hd := h'.1 kv1.2 (List.mem_map.mpr ⟨kv1, h1, rfl⟩)
      rw [h2] at heq
      exact absurd heq (idsDisjoint_symm hd hsome)
    · exact ih h'.2 kv1 h1 kv2 h2 hsome heq

lemma propagateColumns_fn_pairwise :
    ∀ (rest : List MatchChainColumn) (prev : MatchChainColumn),
      ((prev.functions_by_address_.map Prod.snd).Pairwise (IdsDisjoint fnMatch)) →
      (∀ col ∈ rest, (col.functions_by_address_.map Prod.fst).Nodup ∧
        ∀ kv ∈ col.functions_by_address_, (fnMatch kv.2).id = none) →
      ∀ col ∈ propagateColumns prev rest,
        ((col.functions_by_address_.map Prod.snd).Pairwise (IdsDisjoint fnMatch)) := by
  intro rest
  induction rest with
  | nil =>
    intro prev _ _ col hcol
    exact absurd (show col ∈ ([] : List MatchChainColumn) from hcol)
      (List.not_mem_nil col)
  | cons c rest' ih =>
    intro prev hprev hfresh col hcol
    have hc := hfresh c (List.mem_cons_self c rest')
    have hstep : (((propagateColumnStep prev c).functions_by_address_).map
        Prod.snd).Pairwise (IdsDisjoint fnMatch) := by
      show ((propagateInto fnMatch fnSetId (prev.functions_by_address_.map Prod.snd)
        c.functions_by_address_).map Prod.snd).Pairwise (IdsDisjoint fnMatch)
      exact propagateInto_pairwise fnMatch fnSetId fn_set_match fn_set_set hprev hc.1 hc.2
    have hcol' : col ∈ (propagateColumnStep prev c) ::
        propagateColumns (propagateColumnStep prev c) rest' := hcol
    rcases List.mem_cons.mp hcol' with he | hmem
    · rw [he]; exact hstep
    · exact ih (propagateColumnStep prev c) hstep
        (fun c2 h2 => hfresh c2 (List.mem_cons_of_mem c h2)) col hmem

/-- C3 counterexample: in the (spec-modelled) propagation of the
single-column example table, two basic blocks of the first column — one
in each function — both carry identity `0`, so a column does not hold at
most one basic-block entity per identity value when the count is taken
column-globally. -/
theorem C3_counterexample_global_bb_ids :
    PropagateIds [exampleColumn] = [exampleSeeded] ∧
    ¬ AtMostOnePerId bbMatch exampleSeeded.basic_blocks_by_address_ :=
  ⟨rfl, by decide⟩

/-- C3 (amended): after identity propagation, every column holds at most
one function entity per identity value; for basic blocks the guarantee
is per propagation scope — the threading step of the basic blocks of one
predecessor function assigns at most one basic block per identity in the
target column — since basic-block identities are scoped per enclosing
function rather than column-global. -/
theorem C3_ident_uniqueness_amended
    (tbl : List MatchChainColumn)
    (hfresh : ∀ col ∈ tbl, (col.functions_by_address_.map Prod.fst).Nodup ∧
      ∀ kv ∈ col.functions_by_address_, (fnMatch kv.2).id = none)
    (preds : List MatchedBasicBlock)
    (cur : List (MemoryAddress × MatchedBasicBlock))
    (hpreds : preds.Pairwise (IdsDisjoint bbMatch))
    (hcur : ∀ kv ∈ cur, (bbMatch kv.2).id = none) :
    (∀ col ∈ PropagateIds tbl, AtMostOnePerId fnMatch col.functions_by_address_) ∧
    AtMostOnePerId bbMatch (propagateInto bbMatch bbSetId preds cur) := by
  constructor
  · intro col hcol
    cases tbl with
    | nil =>
      exact absurd (show col ∈ ([] : List MatchChainColumn) from hcol)
        (List.not_mem_nil col)
    | cons c rest =>
      have hcol' : col ∈ seedColumn c :: propagateColumns (seedColumn c) rest := hcol
      have hseedpw : ((seedColumn c).functions_by_address_.map Prod.snd).Pairwise
          (IdsDisjoint fnMatch) := by
        show ((seedFnList 0 c.functions_by_address_).map Prod.snd).Pairwise _
        exact seedFnList_pairwise c.functions_by_address_ 0
      rcases List.mem_cons.mp hcol' with he | hmem
      · rw [he]; exact atMostOne_of_snd_pairwise fnMatch hseedpw
      · exact atMostOne_of_snd_pairwise fnMatch
          (propagateColumns_fn_pairwise rest (seedColumn c) hseedpw
            (fun c2 h2 => hfresh c2 (List.mem_cons_of_mem c h2)) col hmem)
  · exact propagateInto_atMostOne bbMatch bbSetId bb_set_match bb_set_set hpreds hcur

/-- Concrete predecessor basic block for the C3 witness. -/
def witPredBB : MatchedBasicBlock :=
  { match_ := { address := 11, address_in_next := 111, id := some 0 } }

/-- Concrete current-column basic block for the C3 witness. -/
def witCurBB : MatchedBasicBlock :=
  { match_ := { address := 111, address_in_next := 0, id := none } }

/-- C3 witness: the amended uniqueness statement applied to the concrete
one-column table and a concrete one-block scope. -/
theorem C3_ident_uniqueness_amended_witness :
    ((∀ col ∈ [exampleColumn],
        (col.functions_by_address_.map Prod.fst).Nodup ∧
        ∀ kv ∈ col.functions_by_address_, (fnMatch kv.2).id = none) ∧
      [witPredBB].Pairwise (IdsDisjoint bbMatch) ∧
      (∀ kv ∈ [((111 : MemoryAddress), witCurBB)], (bbMatch kv.2).id = none)) ∧
    ((∀ col ∈ PropagateIds [exampleColumn],
        AtMostOnePerId fnMatch col.functions_by_address_) ∧
      AtMostOnePerId bbMatch
        (propagateInto bbMatch bbSetId [witPredBB] [((111 : MemoryAddress), witCurBB)])) :=
  ⟨⟨by decide, by simp, by decide⟩,
    C3_ident_uniqueness_amended [exampleColumn] (by decide) [witPredBB]
      [((111 : MemoryAddress), witCurBB)] (by simp) (by decide)⟩

/-- C5 counterexample: in the indexed example column both functions
contain a basic block with identity `0`, but the column-level
`FindBasicBlockById` (the only lookup by basic-block identity) keeps one
entity per identity, so for one of the two functions the lookup does not
return that function's identity-`0` basic block. -/
theorem C5_counterexample_lookup_confusion :
    ¬ (∀ kvf ∈ exampleIndexed.functions_by_address_,
        ∀ a ∈ kvf.2.basic_blocks,
        ∀ bb, lookupA exampleIndexed.basic_blocks_by_address_ a = some bb →
          bb.match_.id.isSome →
          exampleIndexed.FindBasicBlockById (bb.match_.id.getD 0) = some bb) := by
  decide

/-- C5 (amended): basic-block identities are scoped per enclosing
function: in the indexed example column the two functions each contain
one basic block and both of these blocks carry identity `0`; the blocks
are distinct entities, each reached without ambiguity through its
enclosing function's member set, while the column-level identity index
retains only one entity per identity value (here the first function's
block), so identity-based disambiguation between functions must go
through the member sets. -/
theorem C5_scoped_bb_ids_amended :
    ((exampleIndexed.FindFunctionByAddress 100).map (fun f => f.basic_blocks) =
        some [110] ∧
      (exampleIndexed.FindFunctionByAddress 200).map (fun f => f.basic_blocks) =
        some [210]) ∧
    ((exampleIndexed.FindBasicBlockByAddress 110).map (fun bb => bb.match_.id) =
        some (some 0) ∧
      (exampleIndexed.FindBasicBlockByAddress 210).map (fun bb => bb.match_.id) =
        some (some 0)) ∧
    exampleIndexed.FindBasicBlockByAddress 110 ≠
      exampleIndexed.FindBasicBlockByAddress 210 ∧
    exampleIndexed.FindBasicBlockById 0 = exampleIndexed.FindBasicBlockByAddress 110 := by
  refine ⟨⟨?_, ?_⟩, ⟨?_, ?_⟩, ?_, ?_⟩ <;> decide

/-- C10: with the default filter mode `FILTER_NONE`, `InsertFunctionMatch`
never filters: any pair at a fresh address is inserted and returned,
regardless of the contents of the filtered-functions set. -/
theorem C10_filter_none_never_filters (col : MatchChainColumn) (p : MemoryAddressPair)
    (hmode : col.function_filter_ = .FILTER_NONE)
    (hfresh : lookupA col.functions_by_address_ p.1 = none) :
    ∃ col', col.InsertFunctionMatch p =
        some (col', some { match_ := .fromMatch p }) ∧
      lookupA col'.functions_by_address_ p.1 = some { match_ := .fromMatch p } := by
  have hne : filteredOut col p.1 = false := by
    unfold filteredOut; rw [hmode]
  obtain ⟨l', hl', hlook⟩ :=
    insertNew_of_absent p.1 ({ match_ := .fromMatch p } : MatchedFunction)
      col.functions_by_address_ hfresh
  exact ⟨{ col with functions_by_address_ := l' },
    by simp [MatchChainColumn.InsertFunctionMatch, hne, hl'], hlook⟩

/-! Lemmas for the structural well-formedness invariant (C8). -/

lemma insertNew_mem_fst {α : Type} {a : MemoryAddress} {x : α} :
    ∀ {l l' : List (MemoryAddress × α)}, insertNew a x l = some l' →
      ∀ b ∈ l'.map Prod.fst, b = a ∨ b ∈ l.map Prod.fst := by
  intro l
  induction l with
  | nil =>
    intro l' h b hb
    simp [insertNew] at h
    subst h
    simp at hb
    exact Or.inl hb
  | cons kv rest ih =>
    intro l' h b hb
    by_cases hlt : a < kv.1
    · simp [insertNew, hlt] at h
      subst h
      simp at hb
      rcases hb with hb | hb | hb
      · exact Or.inl hb
      · exact Or.inr (by simp [hb])
      · exact Or.inr (by simp [hb])
    · by_cases he : a = kv.1
      · simp [insertNew, hlt, he] at h
      · simp [insertNew, hlt, he] at h
        obtain ⟨rest', hrest', hl'⟩ := h
        subst hl'
        simp at hb
        rcases hb with hb | hb
        · exact Or.inr (by simp [hb])
        · rcases ih hrest' b (by simpa using hb) with h1 | h1
          · exact Or.inl h1
          · exact Or.inr (by simp [h1])

lemma insertNew_pairwise {α : Type} {a : MemoryAddress} {x : α} :
    ∀ {l l' : List (MemoryAddress × α)}, (l.map Prod.fst).Pairwise (· < ·) →
      insertNew a x l = some l' → (l'.map Prod.fst).Pairwise (· < ·) := by
  intro l
  induction l with
  | nil =>
    intro l' _ h
    simp [insertNew] at h
    subst h
    simp
  | cons kv rest ih =>
    intro l' hs h
    rw [List.map_cons] at hs
    have hs' := List.pairwise_cons.mp hs
    by_cases hlt : a < kv.1
    · simp [insertNew, hlt] at h
      subst h
      simp only [List.map_cons]
      refine List.pairwise_cons.mpr ⟨?_, hs⟩
      intro b hb
      rcases List.mem_cons.mp hb with hb | hb
      · rw [hb]; exact hlt
      · exact lt_trans hlt (hs'.1 b hb)
    · by_cases he : a = kv.1
      · simp [insertNew, hlt, he] at h
      · simp [insertNew, hlt, he] at h
        obtain ⟨rest', hrest', hl'⟩ := h
        subst hl'
        simp only [List.map_cons]
        refine List.pairwise_cons.mpr ⟨?_, ih hs'.2 hrest'⟩
        intro b hb
        rcases insertNew_mem_fst hrest' b hb with h1 | h1
        · subst h1
          rcases Nat.lt_trichotomy b kv.1 with hc | hc | hc
          · exact absurd hc hlt
          · exact absurd hc he
          · exact hc
        · exact hs'.1 b h1

lemma mem_insertNew {α : Type} {a : MemoryAddress} {x : α} :
    ∀ {l l' : List (MemoryAddress × α)}, insertNew a x l = some l' →
      ∀ kv ∈ l', kv ∈ l ∨ kv = (a, x) := by
  intro l
  induction l with
  | nil =>
    intro l' h kv hkv
    simp [insertNew] at h
    subst h
    simp at hkv
    exact Or.inr hkv
  | cons kv0 rest ih =>
    intro l' h kv hkv
    by_cases hlt : a < kv0.1
    · simp [insertNew, hlt] at h
      subst h
      simp at hkv
      rcases hkv with hb | hb | hb
      · exact Or.inr hb
      · exact Or.inl (by simp [hb])
      · exact Or.inl (by simp [hb])
    · by_cases he : a = kv0.1
      · simp [insertNew, hlt, he] at h
      · simp [insertNew, hlt, he] at h
        obtain ⟨rest', hrest', hl'⟩ := h
        subst hl'
        simp at hkv
        rcases hkv with hb | hb
        · exact Or.inl (by simp [hb])
        · rcases ih hrest' kv hb with h1 | h1
          · exact Or.inl (by simp [h1])
          · exact Or.inr h1

lemma mem_insertSortedNat {a : Nat} :
    ∀ {l : List Nat} {b : Nat}, b ∈ insertSortedNat a l → b = a ∨ b ∈ l := by
  intro l
  induction l with
  | nil => intro b hb; simp [insertSortedNat] at hb; exact Or.inl hb
  | cons c rest ih =>
    intro b hb
    by_cases hlt : a < c
    · simp [insertSortedNat, hlt] at hb
      rcases hb with hb | hb | hb
      · exact Or.inl hb
      · exact Or.inr (by simp [hb])
      · exact Or.inr (by simp [hb])
    · by_cases he : a = c
      · simp [insertSortedNat, hlt, he] at hb
        rcases hb with hb | hb
        · exact Or.inr (by simp [hb])
        · exact Or.inr (by simp [hb])
      · simp [insertSortedNat, hlt, he] at hb
        rcases hb with hb | hb
        · exact Or.inr (by simp [hb])
        · rcases ih hb with h1 | h1
          · exact Or.inl h1
          · exact Or.inr (by simp [h1])

lemma insertSortedNat_pairwise {a : Nat} :
    ∀ {l : List Nat}, l.Pairwise (· < ·) → (insertSortedNat a l).Pairwise (· < ·) := by
  intro l
  induction l with
  | nil => intro _; simp [insertSortedNat]
  | cons c rest ih =>
    intro hs
    have hs' := List.pairwise_cons.mp hs
    by_cases hlt : a < c
    · simp only [insertSortedNat, if_pos hlt]
      refine List.pairwise_cons.mpr ⟨?_, hs⟩
      intro b hb
      simp at hb
      rcases hb with hb | hb
      · simp [hb, hlt]
      · exact lt_trans hlt (hs'.1 b hb)
    · by_cases he : a = c
      · simpa [insertSortedNat, hlt, he] using hs
      · simp only [insertSortedNat, if_neg hlt, if_neg he]
        refine List.pairwise_cons.mpr ⟨?_, ih hs'.2⟩
        intro b hb
        rcases mem_insertSortedNat hb with h1 | h1
        · subst h1
          rcases Nat.lt_trichotomy b c with hc | hc | hc
          · exact absurd hc hlt
          · exact absurd hc he
          · exact hc
        · exact hs'.1 b h1

lemma adjustA_map_fst {α : Type} (f : α → α) (a : MemoryAddress)
    (c : List (MemoryAddress × α)) :
    (adjustA f a c).map Prod.fst = c.map Prod.fst := by
  induction c with
  | nil => rfl
  | cons kv rest ih =>
    by_cases h : kv.1 = a <;> simp [adjustA, h] at ih ⊢ <;> simpa using ih

lemma mem_adjustA {α : Type} {f : α → α} {a : MemoryAddress}
    {c : List (MemoryAddress × α)} {kv : MemoryAddress × α}
    (h : kv ∈ adjustA f a c) : kv ∈ c ∨ ∃ kv0 ∈ c, kv = (kv0.1, f kv0.2) := by
  obtain ⟨kv0, hkv0, heq⟩ := List.mem_map.mp h
  by_cases hk : kv0.1 = a
  · right
    refine ⟨kv0, hkv0, ?_⟩
    rw [if_pos hk] at heq
    exact heq.symm
  · left
    rw [if_neg hk] at heq
    exact heq ▸ hkv0

lemma applyOp_wf (col : MatchChainColumn) (op : Op) (h : ColumnWF col) :
    ColumnWF (applyOp col op) := by
  obtain ⟨h1, h2, h3, h4, h5⟩ := h
  cases op with
  | insFn p =>
    simp only [applyOp, MatchChainColumn.InsertFunctionMatch]
    by_cases hflt : filteredOut col p.1
    · simpa [hflt] using ⟨h1, h2, h3, h4, h5⟩
    · simp only [hflt, Bool.false_eq_true, if_neg, ite_false]
      cases hins : insertNew p.1
          ({ match_ := .fromMatch p } : MatchedFunction) col.functions_by_address_ with
      | none => exact ⟨h1, h2, h3, h4, h5⟩
      | some idx =>
        refine ⟨insertNew_pairwise h1 hins, h2, h3, ?_, h5⟩
        intro kv hkv
        rcases mem_insertNew hins kv hkv with hm | hm
        · exact h4 kv hm
        · subst hm; simp
  | insBB fnAddr p =>
    cases hfn : lookupA col.functions_by_address_ fnAddr with
    | none =>
      have hres : applyOp col (.insBB fnAddr p) = col := by
        simp [applyOp, MatchChainColumn.InsertBasicBlockMatch, hfn]
      rw [hres]
      exact ⟨h1, h2, h3, h4, h5⟩
    | some f0 =>
      cases hins : insertNew p.1
          ({ match_ := .fromMatch p } : MatchedBasicBlock)
          col.basic_blocks_by_address_ with
      | none =>
        have hres : applyOp col (.insBB fnAddr p) = col := by
          simp [applyOp, MatchChainColumn.InsertBasicBlockMatch, hfn, hins]
        rw [hres]
        exact ⟨h1, h2, h3, h4, h5⟩
      | some idx =>
        have hres : applyOp col (.insBB fnAddr p) =
            { col with
                basic_blocks_by_address_ := idx,
                functions_by_address_ :=
                  adjustA
                    (fun f =>
                      { f with basic_blocks := insertSortedNat p.1 f.basic_blocks })
                    fnAddr col.functions_by_address_ } := by
          simp [applyOp, MatchChainColumn.InsertBasicBlockMatch, hfn, hins]
        rw [hres]
        refine ⟨by rw [adjustA_map_fst]; exact h1,
          insertNew_pairwise h2 hins, h3, ?_, ?_⟩
        · intro kv hkv
          have hkv' : kv ∈ adjustA
              (fun f => { f with basic_blocks := insertSortedNat p.1 f.basic_blocks })
              fnAddr col.functions_by_address_ := hkv
          rcases mem_adjustA hkv' with hm | ⟨kv0, hkv0, heq⟩
          · exact h4 kv hm
          · rw [heq]
            exact insertSortedNat_pairwise (h4 kv0 hkv0)
        · intro kv hkv
          rcases mem_insertNew hins kv hkv with hm | hm
          · exact h5 kv hm
          · rw [hm]; simp
  | insInstr bbAddr p =>
    cases hbb : lookupA col.basic_blocks_by_address_ bbAddr with
    | none =>
      have hres : applyOp col (.insInstr bbAddr p) = col := by
        simp [applyOp, MatchChainColumn.InsertInstructionMatch, hbb]
      rw [hres]
      exact ⟨h1, h2, h3, h4, h5⟩
    | some bb0 =>
      cases hins : insertNew p.1
          ({ match_ := .fromMatch p } : MatchedInstruction)
          col.instructions_by_address_ with
      | none =>
        have hres : applyOp col (.insInstr bbAddr p) = col := by
          simp [applyOp, MatchChainColumn.InsertInstructionMatch, hbb, hins]
        rw [hres]
        exact ⟨h1, h2, h3, h4, h5⟩
      | some idx =>
        have hres : applyOp col (.insInstr bbAddr p) =
            { col with
                instructions_by_address_ := idx,
                basic_blocks_by_address_ :=
                  adjustA
                    (fun bb =>
                      { bb with instructions := insertSortedNat p.1 bb.instructions })
                    bbAddr col.basic_blocks_by_address_ } := by
          simp [applyOp, MatchChainColumn.InsertInstructionMatch, hbb, hins]
        rw [hres]
        refine ⟨h1, by rw [adjustA_map_fst]; exact h2,
          insertNew_pairwise h3 hins, h4, ?_⟩
        intro kv hkv
        have hkv' : kv ∈ adjustA
            (fun bb => { bb with instructions := insertSortedNat p.1 bb.instructions })
            bbAddr col.basic_blocks_by_address_ := hkv
        rcases mem_adjustA hkv' with hm | ⟨kv0, hkv0, heq⟩
        · exact h5 kv hm
        · rw [heq]
          exact insertSortedNat_pairwise (h5 kv0 hkv0)

/-- C8: every sequence of insertions, starting from any structurally
well-formed column (in particular the empty one), keeps every owning
address index strictly ascending in primary address (so no two entities
in the same owning index share an address) and keeps every member set
(a function's basic blocks, a basic block's instructions) strictly
ascending in primary address with no duplicates. -/
theorem C8_insertion_invariants (col : MatchChainColumn) (ops : List Op)
    (h : ColumnWF col) : ColumnWF (applyOps col ops) := by
  induction ops generalizing col with
  | nil => exact h
  | cons op rest ih => exact ih (applyOp col op) (applyOp_wf col op h)

/-- C8 witness: the example insertion sequence applied to the empty
column yields a well-formed column. -/
theorem C8_insertion_invariants_witness :
    ColumnWF MatchChainColumn.empty ∧ ColumnWF (applyOps MatchChainColumn.empty exampleOps) :=
  ⟨by decide, C8_insertion_invariants MatchChainColumn.empty exampleOps (by decide)⟩

/-- C10 witness: a column whose filtered set holds address `100` under
the default `FILTER_NONE` mode still inserts a function at `100`. -/
theorem C10_filter_none_never_filters_witness :
    ((MatchChainColumn.empty.AddFilteredFunction 100).function_filter_ =
        FunctionFilterMode.FILTER_NONE ∧
      lookupA (MatchChainColumn.empty.AddFilteredFunction 100).functions_by_address_
        100 = none) ∧
    ∃ col', (MatchChainColumn.empty.AddFilteredFunction 100).InsertFunctionMatch
        (100, 0) = some (col', some { match_ := .fromMatch (100, 0) }) ∧
      lookupA col'.functions_by_address_ 100 =
        some { match_ := .fromMatch (100, 0) } :=
  ⟨⟨by decide, by decide⟩,
    C10_filter_none_never_filters (MatchChainColumn.empty.AddFilteredFunction 100)
      (100, 0) (by decide) (by decide)⟩

end vxsig
